import Mathlib

/-!
Verification of the control-allocation optimization engine of this repository
against its natural-language specification.

Shallow embedding conventions:
* Python/numpy floats are modelled as rationals (`ℚ`); the claims under study
  are arithmetic/structural, not about floating-point rounding.
* numpy 1-d arrays and Python lists are modelled as `List ℚ`.
* Python `None` is modelled with `Option`.
* Code that can raise is modelled with `Except`.
* Mutable attributes are modelled by explicit state passing.

Sources embedded:
* `src/psyneulink/core/components/mechanisms/modulatory/control/controlmechanism.py`
  (`_net_outcome_getter`, `ControlMechanism.Parameters` defaults,
  `_instantiate_objective_mechanism`, `get_next_sim_id`);
* `src/psyneulink/library/mechanisms/adaptive/control/controller.py`
  (`Controller.run_simulation`, `run_simulations`, `get_allocation_policies`,
  `_execute`);
* `src/psyneulink/library/subsystems/lvoc/lvoccontrolmechanism.py`
  (`LVOCControlMechanism.gradient_ascent`).

Collaborator code of this repository that is not under `src/` (the composition
execution engine, the `LinearCombination` function, the
`ControlSignalGridSearch2` search function, and a few keyword constants) is
modelled from the spec; each such definition carries a doc comment starting
with `Modelled from the spec:`.
-/

/-! ## ControlMechanism: net outcome and default aggregation (C7, C8, C10) -/

/-- Which combination a `LinearCombination` function performs
(`operation` argument: `SUM` or `PRODUCT`). -/
inductive Operation where
  | SUM : Operation
  | PRODUCT : Operation
deriving DecidableEq

/-- Modelled from the spec: the `LinearCombination` function
(psyneulink combination functions module, not under `src/`): combines a list
of same-length vectors into one vector, elementwise, by sum or by product
according to `operation` (spec section 4.2: default aggregation is the
"element-wise product of all monitored vectors"). An empty list of vectors
gives the empty vector.  (`vectors` stands for the source's `variable`
argument, a Lean keyword.) -/
def LinearCombination (operation : Operation) (vectors : List (List ℚ)) : List ℚ :=
  match vectors with
  | [] => []
  | v :: rest =>
    match operation with
    | Operation.SUM => rest.foldl (fun acc w => List.zipWith (· + ·) acc w) v
    | Operation.PRODUCT => rest.foldl (fun acc w => List.zipWith (· * ·) acc w) v

/-- The function slot of an ObjectiveMechanism, the only part of it the claims
under study depend on. -/
structure ObjectiveMechanismModel where
  function : List (List ℚ) → List ℚ

/-- Embeds the function choice made by
`ControlMechanism._instantiate_objective_mechanism`
(controlmechanism.py lines 1336-1347): if the `objective_mechanism` attribute
is already an ObjectiveMechanism it is kept (after adding monitored states to
it); otherwise a new ObjectiveMechanism is constructed with
`function=LinearCombination(operation=PRODUCT)` (line 1344). -/
def instantiate_objective_mechanism (existing : Option ObjectiveMechanismModel) :
    ObjectiveMechanismModel :=
  match existing with
  | some m => m
  | none => ⟨LinearCombination Operation.PRODUCT⟩

/-- Default `compute_net_outcome`
(controlmechanism.py line 1068 and constructor default line 1098):
`lambda outcome, cost: outcome - cost`. -/
def compute_net_outcome_default (outcome cost : ℚ) : ℚ := outcome - cost

/-- Default `combine_costs` (controlmechanism.py line 1062 and constructor
default line 1096): `np.sum`. -/
def combine_costs_default (costs : List ℚ) : ℚ := costs.sum

/-- The state of a `ControlMechanism` read through its parameter getters for
one context.  `outcome` models `parameters.outcome._get(context)` (a scalar
projection of the 1-element OUTCOME value; `none` when not yet set), `costs`
models `parameters.costs._get(context)` (`none` when the cost computation is
not yet possible, cf. `_control_mechanism_costs_getter` returning `None` on
`TypeError`). -/
structure ControlMechanismState where
  outcome : Option ℚ
  costs : Option (List ℚ)
  combine_costs : List ℚ → ℚ
  compute_net_outcome : ℚ → ℚ → ℚ

/-- Embeds `_net_outcome_getter` (controlmechanism.py lines 640-647):
`return compute_net_outcome(outcome, combine_costs(costs))`, with
`except TypeError: return [0]`.  In Python the `TypeError` arises when
`outcome` is `None` (`None - cost`) or `costs` is `None` (`np.sum(None)`);
both are modelled by the `Option` being `none`.  (For set values the scalar
functions are total, so no other `TypeError` arises.) -/
def net_outcome_getter (c : ControlMechanismState) : List ℚ :=
  match c.outcome, c.costs with
  | some o, some cs => [c.compute_net_outcome o (c.combine_costs cs)]
  | none, _ => [0]
  | some _, none => [0]

/-- C7: when no custom outcome-aggregation function is supplied, the default
aggregation of the monitored values is their element-wise product (a
`LinearCombination` with operation `PRODUCT`), not their sum: the
ObjectiveMechanism instantiated by default carries
`LinearCombination Operation.PRODUCT`, which on two vectors is their
elementwise product, and which differs from the elementwise sum. -/
theorem default_objective_function_is_elementwise_product :
    (instantiate_objective_mechanism none).function
      = LinearCombination Operation.PRODUCT
    ∧ (∀ u v : List ℚ,
        LinearCombination Operation.PRODUCT [u, v] = List.zipWith (· * ·) u v)
    ∧ LinearCombination Operation.PRODUCT [[2, 3], [4, 5]]
        ≠ LinearCombination Operation.SUM [[2, 3], [4, 5]] := by
  refine ⟨rfl, fun u v => rfl, ?_⟩
  intro h
  simp only [LinearCombination, List.foldl, List.zipWith] at h
  norm_num at h

/-- C8: the default net-value function computes outcome minus aggregated cost,
and `_net_outcome_getter` applies whatever binary function is installed in the
`compute_net_outcome` slot to the outcome and the combined costs, identically
for the default and for any replacement. -/
theorem compute_net_outcome_default_and_replaceable :
    (∀ o c : ℚ, compute_net_outcome_default o c = o - c)
    ∧ (∀ (f : ℚ → ℚ → ℚ) (g : List ℚ → ℚ) (o : ℚ) (cs : List ℚ),
        net_outcome_getter ⟨some o, some cs, g, f⟩ = [f o (g cs)])
    ∧ (∀ (o : ℚ) (cs : List ℚ),
        net_outcome_getter
            ⟨some o, some cs, combine_costs_default, compute_net_outcome_default⟩
          = [o - cs.sum]) :=
  ⟨fun _ _ => rfl, fun _ _ _ _ => rfl, fun _ _ => rfl⟩

/-- C10: if the outcome or the costs for a given context have not yet been set
(so that combining them raises a `TypeError` in the source), reading the
ControlMechanism's `net_outcome` returns `[0]` instead of propagating an
error. -/
theorem net_outcome_getter_unset_returns_zero (c : ControlMechanismState)
    (h : c.outcome = none ∨ c.costs = none) :
    net_outcome_getter c = [0] := by
  rcases c with ⟨o, cs, g, f⟩
  rcases h with h | h
  · simp only at h
    subst h
    rfl
  · simp only at h
    subst h
    cases o <;> rfl

/-- Witness for C10: a concrete state with unset costs yields `[0]`. -/
theorem net_outcome_getter_unset_returns_zero_witness :
    ((⟨some 5, none, combine_costs_default, compute_net_outcome_default⟩ :
        ControlMechanismState).outcome = none
      ∨ (⟨some 5, none, combine_costs_default, compute_net_outcome_default⟩ :
        ControlMechanismState).costs = none)
    ∧ net_outcome_getter
        ⟨some 5, none, combine_costs_default, compute_net_outcome_default⟩ = [0] :=
  ⟨Or.inr rfl,
    net_outcome_getter_unset_returns_zero
      ⟨some 5, none, combine_costs_default, compute_net_outcome_default⟩ (Or.inr rfl)⟩

/-! ## Controller.get_allocation_policies (C3) -/

/-- Length of `List.sections`: the number of sections of `[L₁, ..., Lₙ]` is
the product of the lengths of the `Lᵢ`. -/
theorem length_sections {α : Type*} (L : List (List α)) :
    (List.sections L).length = (L.map List.length).prod := by
  induction L with
  | nil => rfl
  | cons l L ih =>
    simp only [List.sections, List.length_flatMap, List.map_map, Function.comp_def,
      List.length_map, List.map_const', List.sum_replicate, smul_eq_mul,
      List.map_cons, List.prod_cons, ih]
    ring

/-- `List.sections` of lists without duplicates has no duplicates. -/
theorem nodup_sections {α : Type*} {L : List (List α)} (h : ∀ l ∈ L, l.Nodup) :
    (List.sections L).Nodup := by
  induction L with
  | nil => exact List.nodup_singleton _
  | cons l L ih =>
    simp only [List.sections]
    rw [List.nodup_flatMap]
    refine ⟨fun s _ => ?_, ?_⟩
    · exact (h l (List.mem_cons_self _ _)).map fun a b hab => by
        simpa using hab
    · refine (ih fun l' hl' => h l' (List.mem_cons_of_mem _ hl')).imp ?_
      intro s₁ s₂ hne
      simp only [Function.onFun]
      rw [List.disjoint_left]
      rintro p hp₁ hp₂
      rcases List.mem_map.1 hp₁ with ⟨a, _, rfl⟩
      rcases List.mem_map.1 hp₂ with ⟨b, _, hab⟩
      obtain ⟨-, h⟩ : a = b ∧ s₁ = s₂ := by simpa using hab.symm
      exact hne h

/-- Embeds `Controller.get_allocation_policies` (controller.py lines 911-926):
`np.array(np.meshgrid(*control_signal_sample_lists)).T.reshape(-1, k)`, where
the i-th sample list is `control_signals[i].allocation_samples` and `k` is the
number of control signals.  For `k ≥ 1` the rows of that array are the tuples
with one entry from each sample list, enumerated (default meshgrid indexing,
C-order flattening of the transpose) with the second coordinate varying
fastest, then the first, then coordinates `3, ..., k`, the last varying
slowest — exactly the order produced below, since `List.sections` enumerates
its first coordinate fastest.  For `k = 0` the numpy reshape `(-1, 0)` of an
empty array raises; modelled as no policies. -/
def get_allocation_policies : List (List ℚ) → List (List ℚ)
  | [] => []
  | [l] => l.map fun x => [x]
  | l₁ :: l₂ :: rest =>
    (List.sections rest).flatMap fun tail =>
      l₁.flatMap fun x₁ => l₂.map fun x₂ => x₁ :: x₂ :: tail

/-- Membership in `get_allocation_policies`: exactly the tuples picking one
sample per control signal (for at least one control signal). -/
theorem mem_get_allocation_policies {Ls : List (List ℚ)} (hne : Ls ≠ [])
    {p : List ℚ} :
    p ∈ get_allocation_policies Ls ↔ List.Forall₂ (· ∈ ·) p Ls := by
  match Ls with
  | [] => exact absurd rfl hne
  | [l] =>
    simp only [get_allocation_policies, List.mem_map, List.forall₂_cons_right_iff,
      List.forall₂_nil_right_iff]
    constructor
    · rintro ⟨x, hx, rfl⟩; exact ⟨x, [], hx, rfl, rfl⟩
    · rintro ⟨x, l', hx, rfl, rfl⟩; exact ⟨x, hx, rfl⟩
  | l₁ :: l₂ :: rest =>
    simp only [get_allocation_policies, List.mem_flatMap, List.mem_map,
      List.forall₂_cons_right_iff, List.mem_sections]
    constructor
    · rintro ⟨tail, htail, x₁, hx₁, x₂, hx₂, rfl⟩
      exact ⟨x₁, x₂ :: tail, hx₁, ⟨x₂, tail, hx₂, htail, rfl⟩, rfl⟩
    · rintro ⟨x₁, t₁, hx₁, ⟨x₂, tail, hx₂, htail, rfl⟩, rfl⟩
      exact ⟨tail, htail, x₁, hx₁, x₂, hx₂, rfl⟩

/-- C3: for ControlSignals whose `allocation_samples` sets have sizes
`n₁, ..., nₖ` (`k ≥ 1`, each a set, i.e. duplicate-free),
`get_allocation_policies` returns the full Cartesian product of the per-signal
sample sets: a tuple is a policy iff it picks one sample per signal, the list
of policies has no duplicates (so every combination appears exactly once),
and the number of candidate policies is `n₁ * ... * nₖ`. -/
theorem get_allocation_policies_cartesian (Ls : List (List ℚ)) (hne : Ls ≠ [])
    (hnd : ∀ l ∈ Ls, l.Nodup) :
    (∀ p, p ∈ get_allocation_policies Ls ↔ List.Forall₂ (· ∈ ·) p Ls)
    ∧ (get_allocation_policies Ls).Nodup
    ∧ (get_allocation_policies Ls).length = (Ls.map List.length).prod := by
  have hmem : ∀ p, p ∈ get_allocation_policies Ls ↔ List.Forall₂ (· ∈ ·) p Ls :=
    fun p => mem_get_allocation_policies hne
  have hnodup : (get_allocation_policies Ls).Nodup := by
    match Ls with
    | [] => exact absurd rfl hne
    | [l] =>
      exact (hnd l (List.mem_cons_self _ _)).map fun a b hab => by
        simpa using hab
    | l₁ :: l₂ :: rest =>
      have h₁ : l₁.Nodup := hnd l₁ (by simp)
      have h₂ : l₂.Nodup := hnd l₂ (by simp)
      simp only [get_allocation_policies]
      rw [List.nodup_flatMap]
      refine ⟨fun tail _ => ?_, ?_⟩
      · rw [List.nodup_flatMap]
        refine ⟨fun x₁ _ => ?_, ?_⟩
        · exact h₂.map fun a b hab => by simpa using hab
        · refine h₁.imp ?_
          intro a b hne'
          simp only [Function.onFun]
          rw [List.disjoint_left]
          rintro p hp₁ hp₂
          rcases List.mem_map.1 hp₁ with ⟨x, _, rfl⟩
          rcases List.mem_map.1 hp₂ with ⟨y, _, hxy⟩
          obtain ⟨h, -⟩ : a = b ∧ x = y := by simpa using hxy.symm
          exact hne' h
      · have hs : (List.sections rest).Nodup :=
          nodup_sections fun l' hl' => hnd l' (by simp [hl'])
        refine hs.imp ?_
        intro s₁ s₂ hne'
        simp only [Function.onFun]
        rw [List.disjoint_left]
        rintro p hp₁ hp₂
        rcases List.mem_flatMap.1 hp₁ with ⟨x₁, _, hp₁'⟩
        rcases List.mem_map.1 hp₁' with ⟨x₂, _, rfl⟩
        rcases List.mem_flatMap.1 hp₂ with ⟨y₁, _, hp₂'⟩
        rcases List.mem_map.1 hp₂' with ⟨y₂, _, hxy⟩
        obtain ⟨-, -, h⟩ : x₁ = y₁ ∧ x₂ = y₂ ∧ s₁ = s₂ := by simpa using hxy.symm
        exact hne' h
  refine ⟨hmem, hnodup, ?_⟩
  match Ls with
  | [] => exact absurd rfl hne
  | [l] => simp [get_allocation_policies]
  | l₁ :: l₂ :: rest =>
    simp only [get_allocation_policies, List.length_flatMap, List.map_map,
      Function.comp_def, List.length_map, List.map_const', List.sum_replicate,
      smul_eq_mul, List.map_cons, List.prod_cons, length_sections]
    ring

/-- Witness for C3: two control signals with sample sets of sizes 2 and 3
give the advertised Cartesian-product structure. -/
theorem get_allocation_policies_cartesian_witness :
    (([[0, 1], [2, 3, 4]] : List (List ℚ)) ≠ []
      ∧ ∀ l ∈ ([[0, 1], [2, 3, 4]] : List (List ℚ)), l.Nodup)
    ∧ ((∀ p, p ∈ get_allocation_policies [[0, 1], [2, 3, 4]]
          ↔ List.Forall₂ (· ∈ ·) p [[0, 1], [2, 3, 4]])
      ∧ (get_allocation_policies [[0, 1], [2, 3, 4]]).Nodup
      ∧ (get_allocation_policies [[0, 1], [2, 3, 4]]).length
          = (([[0, 1], [2, 3, 4]] : List (List ℚ)).map List.length).prod) :=
  ⟨⟨by decide, by decide⟩,
    get_allocation_policies_cartesian [[0, 1], [2, 3, 4]] (by decide) (by decide)⟩

/-! ## ControlMechanism.get_next_sim_id (C9) -/

/-- Modelled from the spec: the keyword constant `EID_SIMULATION` (psyneulink
keywords module, not under `src/`), the tag spliced into every simulation
execution id.  The distinctness results below hold for any fixed value. -/
def EID_SIMULATION : String := "-sim"

/-- Decimal digits of a nonnegative integer, most significant first, as
Python's `str`/`format` renders it (`str(0) = "0"`). -/
def pyDigits (n : ℕ) : List ℕ :=
  if n = 0 then [0] else (Nat.digits 10 n).reverse

/-- Python's decimal rendering of a nonnegative integer, as produced for the
`{2}` field of the format string at controlmechanism.py line 1896. -/
def pyIntStr (n : ℕ) : String :=
  ⟨(pyDigits n).map fun d => Char.ofNat (48 + d)⟩

theorem pyDigits_lt_ten (n : ℕ) : ∀ d ∈ pyDigits n, d < 10 := by
  intro d hd
  unfold pyDigits at hd
  split at hd
  · simp only [List.mem_singleton] at hd
    omega
  · exact Nat.digits_lt_base (by norm_num) (List.mem_reverse.1 hd)

theorem pyDigits_injective : Function.Injective pyDigits := by
  intro a b hab
  unfold pyDigits at hab
  by_cases ha : a = 0 <;> by_cases hb : b = 0
  · omega
  · rw [if_pos ha, if_neg hb] at hab
    have hdig : Nat.digits 10 b = [0] := by
      have := congrArg List.reverse hab
      simpa using this.symm
    have : b = 0 := by
      have h0 := Nat.ofDigits_digits 10 b
      rw [hdig] at h0
      simpa using h0.symm
    omega
  · rw [if_neg ha, if_pos hb] at hab
    have hdig : Nat.digits 10 a = [0] := by
      have := congrArg List.reverse hab
      simpa using this
    have : a = 0 := by
      have h0 := Nat.ofDigits_digits 10 a
      rw [hdig] at h0
      simpa using h0.symm
    omega
  · rw [if_neg ha, if_neg hb] at hab
    exact Nat.digits_inj_iff.1 (List.reverse_injective hab)

theorem char_of_digit_toNat : ∀ d, d < 10 → (Char.ofNat (48 + d)).toNat = 48 + d := by
  decide

theorem pyIntStr_injective : Function.Injective pyIntStr := by
  have hdec : ∀ l : List ℕ, (∀ d ∈ l, d < 10) →
      (l.map fun d => Char.ofNat (48 + d)).map (fun c => c.toNat - 48) = l := by
    intro l hl
    induction l with
    | nil => rfl
    | cons d l ih =>
      have hd : (Char.ofNat (48 + d)).toNat = 48 + d :=
        char_of_digit_toNat d (hl d (by simp))
      simp only [List.map_cons, ih fun x hx => hl x (by simp [hx]), hd,
        Nat.add_sub_cancel_left, List.cons.injEq, and_true]
  intro a b hab
  apply pyDigits_injective
  have hdata := congrArg String.data hab
  simp only [pyIntStr] at hdata
  calc pyDigits a
      = ((pyDigits a).map fun d => Char.ofNat (48 + d)).map (fun c => c.toNat - 48) :=
        (hdec _ (pyDigits_lt_ten a)).symm
    _ = ((pyDigits b).map fun d => Char.ofNat (48 + d)).map (fun c => c.toNat - 48) := by
        rw [hdata]
    _ = pyDigits b := hdec _ (pyDigits_lt_ten b)

/-- Embeds the id built at controlmechanism.py line 1896:
`'{0}{1}-{2}'.format(context.execution_id, EID_SIMULATION, sim_num)`. -/
def sim_id_string (execution_id : String) (sim_num : ℕ) : String :=
  execution_id ++ EID_SIMULATION ++ "-" ++ pyIntStr sim_num

theorem sim_id_string_injective (execution_id : String) :
    Function.Injective (sim_id_string execution_id) := by
  intro m n h
  apply pyIntStr_injective
  apply String.ext
  have hdata := congrArg String.data h
  simp only [sim_id_string, String.data_append, List.append_assoc] at hdata
  exact List.append_cancel_left (List.append_cancel_left (List.append_cancel_left hdata))

/-- The `_sim_counts` dictionary of a ControlMechanism, keyed by base
execution id (controlmechanism.py line 1137: `self._sim_counts = {}`),
modelled as an association list in which the most recent binding of a key
shadows older ones. -/
def SimCounts : Type := List (String × ℕ)

/-- Dictionary read: `self._sim_counts[execution_id]`, `none` on `KeyError`. -/
def SimCounts.lookup (s : SimCounts) (k : String) : Option ℕ :=
  (List.find? (fun p => p.1 == k) s).map Prod.snd

/-- Dictionary write: `self._sim_counts[execution_id] = v`. -/
def SimCounts.write (s : SimCounts) (k : String) (v : ℕ) : SimCounts :=
  (k, v) :: s

theorem SimCounts.lookup_write_self (s : SimCounts) (k : String) (v : ℕ) :
    (s.write k v).lookup k = some v := by
  simp [SimCounts.lookup, SimCounts.write, List.find?_cons]

/-- Embeds `get_next_sim_id` (controlmechanism.py lines 1887-1896): under
`_sim_count_lock`, read `_sim_counts[execution_id]` and increment it
(`KeyError` means `sim_num = 0` and the count is set to 1), then return
`'{0}{1}-{2}'.format(execution_id, EID_SIMULATION, sim_num)`.  The lock makes
each read-increment atomic; the sequential state-passing model captures
exactly the sequences of calls the lock permits. -/
def get_next_sim_id (s : SimCounts) (execution_id : String) : String × SimCounts :=
  match s.lookup execution_id with
  | some sim_num =>
    (sim_id_string execution_id sim_num, s.write execution_id (sim_num + 1))
  | none =>
    (sim_id_string execution_id 0, s.write execution_id 1)

/-- The current count for a key, with the dictionary's `KeyError` case read
as 0 (a missing key returns `sim_num = 0`). -/
def SimCounts.countD (s : SimCounts) (k : String) : ℕ :=
  (s.lookup k).getD 0

theorem get_next_sim_id_eq (s : SimCounts) (e : String) :
    get_next_sim_id s e
      = (sim_id_string e (s.countD e), s.write e (s.countD e + 1)) := by
  cases h : s.lookup e <;>
    simp [get_next_sim_id, SimCounts.countD, h]

/-- The ids returned by `n` successive calls of `get_next_sim_id` with the
same base execution id, starting from dictionary state `s`. -/
def sim_ids (s : SimCounts) (execution_id : String) : ℕ → List String
  | 0 => []
  | n + 1 =>
    (get_next_sim_id s execution_id).1
      :: sim_ids (get_next_sim_id s execution_id).2 execution_id n

/-- C9: for every base execution id, every call to `get_next_sim_id` returns
a simulation id distinct from all ids previously returned for that execution
id: the per-execution-id counter advances by one on each (lock-atomic) call
and is embedded in the returned id string, so the ids of any `n` successive
calls are the counter values `c, c+1, ..., c+n-1` rendered into id strings,
pairwise distinct. -/
theorem sim_ids_distinct (s : SimCounts) (e : String) (n : ℕ) :
    sim_ids s e n
      = (List.range n).map (fun k => sim_id_string e (s.countD e + k))
    ∧ (sim_ids s e n).Nodup := by
  have key : ∀ (n : ℕ) (s : SimCounts),
      sim_ids s e n
        = (List.range n).map (fun k => sim_id_string e (s.countD e + k)) := by
    intro n
    induction n with
    | zero => intro s; rfl
    | succ n ih =>
      intro s
      have hw : (s.write e (s.countD e + 1)).countD e = s.countD e + 1 := by
        simp [SimCounts.countD, SimCounts.lookup_write_self]
      simp only [sim_ids, ih, hw, get_next_sim_id_eq, List.range_succ_eq_map,
        List.map_cons, Nat.add_zero, List.map_map, Function.comp_def]
      refine congrArg₂ List.cons rfl ?_
      exact List.map_congr_left fun k _ => congrArg (sim_id_string e) (by omega)
  refine ⟨key n s, ?_⟩
  rw [key n s]
  refine (List.nodup_range n).map ?_
  intro i j hij
  have := sim_id_string_injective e hij
  omega

/-! ## LVOCControlMechanism.gradient_ascent (C4, C5) -/

/-- The per-control-signal functions read by `gradient_ascent`:
`control_signals[i].intensity_cost_function` (lvoccontrolmechanism.py line
803) and its `derivative` (line 795). -/
structure ControlSignalFns where
  intensity_cost_function : ℚ → ℚ
  derivative : ℚ → ℚ
deriving Inhabited

/-- The attributes of `LVOCControlMechanism` read by `gradient_ascent`.
`udpate_rate` keeps the source's (misspelled) attribute name (line 800). -/
structure LVOCConfig where
  convergence_criterion : ℚ
  max_iterations : ℕ
  udpate_rate : ℚ
  control_signals : List ControlSignalFns

/-- Modelled from the spec: the constant `EPSILON` (psyneulink globals
module, not under `src/`), numpy's double-precision machine epsilon.  Only
its positivity matters (it forces at least one loop iteration). -/
def EPSILON : ℚ := 1 / 2 ^ 52

/-- `np.finfo(np.float128).max` (line 757): the largest IEEE binary128
value, `(2 - 2⁻¹¹²) · 2¹⁶³⁸³`. -/
def float128_max : ℚ := 2 ^ 16384 - 2 ^ 16271

/-- The slices of the flat `prediction_vector` argument of `gradient_ascent`
(`_parse_function_variable`, lines 717-722): predictor field `pred`,
control-signal field `ctl`, cost field `cst`.  (The interaction field is
recomputed inside the loop from the others, lines 806-808.) -/
structure PredictionVector where
  pred : List ℚ
  ctl : List ℚ
  cst : List ℚ

/-- The slices of the flat `prediction_weights` argument, with the
interaction slice reshaped to one row per control signal as at line 763. -/
structure PredictionWeights where
  w_pred : List ℚ
  w_intrxn : List (List ℚ)
  w_ctl : List ℚ
  w_cst : List ℚ

/-- `interaction_weights * predictors` (line 765): numpy broadcast of the
predictor row against each interaction-weight row. -/
def interaction_weights_x_predictors (w_intrxn : List (List ℚ))
    (predictors : List ℚ) : List (List ℚ) :=
  w_intrxn.map fun row => List.zipWith (· * ·) row predictors

/-- `gradient_constants` (lines 770-773): a zero array of length
`num_control_signals` filled in place by `gc[i] = control_signal_weights[i];
gc[i] += np.sum(interaction_weights_x_predictors[i])`. -/
def gradient_constants (num_control_signals : ℕ)
    (control_signal_weights : List ℚ) (iwxp : List (List ℚ)) : List ℚ :=
  (List.range num_control_signals).foldl
    (fun g i => g.set i (control_signal_weights.getD i 0 + (iwxp.getD i []).sum))
    (List.replicate num_control_signals 0)

/-- The three arrays mutated by the `for i, control_signal_value in
enumerate(control_signal_values)` loop (lines 792-803): `gradient` (the copy
of `gradient_constants` made at line 789), and `control_signal_values` and
`costs` (numpy views of the `ctl` and `cst` slices of `prediction_vector`,
lines 767 and 775). -/
structure GAVars where
  gradient : List ℚ
  control_signal_values : List ℚ
  costs : List ℚ

/-- One pass of the per-signal loop body at index `i` (lines 792-803):
`cost_gradient[i] = -(derivative(control_signal_value) * cost_weights[i])`;
`gradient[i] += cost_gradient[i]`;
`control_signal_values[i] = control_signal_value + udpate_rate * gradient[i]`;
`costs[i] = -(intensity_cost_function(control_signal_value))`, where
`control_signal_value` is the loop variable, i.e. the value at `i` before
this pass's update. -/
def ga_inner_body (cfg : LVOCConfig) (cost_weights : List ℚ) (v : GAVars)
    (i : ℕ) : GAVars :=
  let control_signal_value := v.control_signal_values.getD i 0
  let fns := cfg.control_signals.getD i default
  let cost_gradient_i := -(fns.derivative control_signal_value * cost_weights.getD i 0)
  let g := v.gradient.getD i 0 + cost_gradient_i
  { gradient := v.gradient.set i g
    control_signal_values :=
      v.control_signal_values.set i (control_signal_value + cfg.udpate_rate * g)
    costs := v.costs.set i (-(fns.intensity_cost_function control_signal_value)) }

/-- The full per-signal loop (`for i, control_signal_value in
enumerate(control_signal_values)`, lines 792-803). -/
def ga_inner_loop (cfg : LVOCConfig) (cost_weights : List ℚ) (v : GAVars) : GAVars :=
  (List.range v.control_signal_values.length).foldl (ga_inner_body cfg cost_weights) v

/-- Dot product of two equally long vectors, a `np.sum(v * w)` building
block. -/
def dotQ (a b : List ℚ) : ℚ := (List.zipWith (· * ·) a b).sum

/-- `compute_lvoc` (lines 838-839): `np.sum(v * w)` over the flat prediction
vector, written as the sum of the four slice contributions. -/
def compute_lvoc (predictors : List ℚ) (intrxn : List (List ℚ))
    (ctl cst : List ℚ) (w : PredictionWeights) : ℚ :=
  dotQ predictors w.w_pred + (List.zipWith dotQ intrxn w.w_intrxn).sum
    + dotQ ctl w.w_ctl + dotQ cst w.w_cst

/-- The variables alive across iterations of the `while` loop
(lines 756-834).  `warned` records whether the `warnings.warn` call at line
831 has fired. -/
structure GAState where
  control_signal_values : List ℚ
  costs : List ℚ
  previous_lvoc : ℚ
  convergence_metric : ℚ
  j : ℕ
  warned : Bool

/-- One iteration of the `while` loop body (lines 788-816): run the
per-signal loop, recompute the interaction terms from the new control-signal
values (lines 806-808; `control_signal_values` and `costs` are numpy views
into `prediction_vector`, so the write-backs at lines 809-810 are no-ops),
compute `current_lvoc` and the convergence metric, and advance `j`.
Returns the new state together with `current_lvoc`. -/
def ga_loop_step (cfg : LVOCConfig) (predictors : List ℚ)
    (w : PredictionWeights) (gc cost_weights : List ℚ) (s : GAState) :
    GAState × ℚ :=
  let v := ga_inner_loop cfg cost_weights ⟨gc, s.control_signal_values, s.costs⟩
  let intrxn := v.control_signal_values.map fun c => predictors.map fun p => p * c
  let current_lvoc := compute_lvoc predictors intrxn v.control_signal_values v.costs w
  ({ control_signal_values := v.control_signal_values
     costs := v.costs
     previous_lvoc := s.previous_lvoc
     convergence_metric := |current_lvoc - s.previous_lvoc|
     j := s.j + 1
     warned := s.warned }, current_lvoc)

/-- The `while convergence_metric > self.convergence_criterion` loop
(lines 786-834), with the `j += 1; if j > self.max_iterations:
warnings.warn(...); break` escape (lines 829-832) and the
`previous_lvoc = current_lvoc` update (line 834) before the next test. -/
def ga_loop (cfg : LVOCConfig) (predictors : List ℚ) (w : PredictionWeights)
    (gc cost_weights : List ℚ) (s : GAState) : GAState :=
  if s.convergence_metric > cfg.convergence_criterion then
    if (ga_loop_step cfg predictors w gc cost_weights s).1.j > cfg.max_iterations then
      { (ga_loop_step cfg predictors w gc cost_weights s).1 with warned := true }
    else
      ga_loop cfg predictors w gc cost_weights
        { (ga_loop_step cfg predictors w gc cost_weights s).1 with
            previous_lvoc := (ga_loop_step cfg predictors w gc cost_weights s).2 }
  else s
termination_by cfg.max_iterations + 1 - s.j
decreasing_by
  simp only [ga_loop_step] at *
  omega

/-- Embeds `LVOCControlMechanism.gradient_ascent` (lvoccontrolmechanism.py
lines 737-836): set up `gradient_constants` from the control-signal weights
and the interaction-weight × predictor products, then iterate the while loop
from the passed-in control-signal values and costs, with
`previous_lvoc = np.finfo(np.float128).max` and
`convergence_metric = convergence_criterion + EPSILON` (lines 756-757).
The returned state carries `control_signal_values`, the value the source
returns (line 836). -/
def gradient_ascent (cfg : LVOCConfig) (pv : PredictionVector)
    (w : PredictionWeights) : GAState :=
  let iwxp := interaction_weights_x_predictors w.w_intrxn pv.pred
  let gc := gradient_constants cfg.control_signals.length w.w_ctl iwxp
  ga_loop cfg pv.pred w gc w.w_cst
    ⟨pv.ctl, pv.cst, float128_max, cfg.convergence_criterion + EPSILON, 0, false⟩

theorem ga_loop_step_fst_j (cfg : LVOCConfig) (predictors : List ℚ)
    (w : PredictionWeights) (gc cost_weights : List ℚ) (s : GAState) :
    (ga_loop_step cfg predictors w gc cost_weights s).1.j = s.j + 1 := rfl

theorem ga_loop_stops_aux (cfg : LVOCConfig) (predictors : List ℚ)
    (w : PredictionWeights) (gc cost_weights : List ℚ) :
    ∀ (n : ℕ) (s : GAState), cfg.max_iterations + 1 - s.j ≤ n →
      s.j ≤ cfg.max_iterations →
      ((ga_loop cfg predictors w gc cost_weights s).convergence_metric
          ≤ cfg.convergence_criterion
        ∨ (ga_loop cfg predictors w gc cost_weights s).warned = true)
      ∧ (ga_loop cfg predictors w gc cost_weights s).j
          ≤ cfg.max_iterations + 1 := by
  intro n
  induction n with
  | zero =>
    intro s hn hsj
    exact absurd hn (by omega)
  | succ n ih =>
    intro s hn hsj
    rw [ga_loop]
    by_cases hif : s.convergence_metric > cfg.convergence_criterion
    · rw [if_pos hif]
      by_cases hj : (ga_loop_step cfg predictors w gc cost_weights s).1.j
          > cfg.max_iterations
      · rw [if_pos hj]
        have hJ : ({ (ga_loop_step cfg predictors w gc cost_weights s).1 with
            warned := true : GAState }).j = s.j + 1 := rfl
        have hW : ({ (ga_loop_step cfg predictors w gc cost_weights s).1 with
            warned := true : GAState }).warned = true := rfl
        exact ⟨Or.inr hW, by rw [hJ]; omega⟩
      · rw [if_neg hj]
        have hj2 : ({ (ga_loop_step cfg predictors w gc cost_weights s).1 with
            previous_lvoc := (ga_loop_step cfg predictors w gc cost_weights s).2
              : GAState }).j = s.j + 1 := rfl
        rw [ga_loop_step_fst_j] at hj
        exact ih _ (by rw [hj2]; omega) (by rw [hj2]; omega)
    · rw [if_neg hif]
      exact ⟨Or.inl (le_of_not_lt hif), by omega⟩

/-- C4: the gradient-ascent search terminates on every input (`ga_loop` and
`gradient_ascent` are total functions, and the iteration counter of the
result is bounded by `max_iterations + 1`): it stops as soon as the absolute
difference between the current and previous net value is at most
`convergence_criterion` (first disjunct: on normal exit the final
`convergence_metric`, which each `ga_loop_step` sets to
`|current_lvoc - previous_lvoc|`, is `≤ convergence_criterion`), and
otherwise, once the iteration count exceeds `max_iterations`, it emits a
warning — the non-fatal `warnings.warn` at line 831, recorded by the
`warned` flag — and returns the state last reached (second disjunct). -/
theorem gradient_ascent_terminates (cfg : LVOCConfig) (pv : PredictionVector)
    (w : PredictionWeights) :
    ((gradient_ascent cfg pv w).convergence_metric ≤ cfg.convergence_criterion
      ∨ (gradient_ascent cfg pv w).warned = true)
    ∧ (gradient_ascent cfg pv w).j ≤ cfg.max_iterations + 1 :=
  ga_loop_stops_aux cfg pv.pred w
    (gradient_constants cfg.control_signals.length w.w_ctl
      (interaction_weights_x_predictors w.w_intrxn pv.pred)) w.w_cst
    (cfg.max_iterations + 1)
    ⟨pv.ctl, pv.cst, float128_max, cfg.convergence_criterion + EPSILON, 0, false⟩
    (le_refl _) (Nat.zero_le _)

theorem foldl_set_length (f : ℕ → ℚ) :
    ∀ (l : List ℕ) (g : List ℚ),
      (l.foldl (fun g i => g.set i (f i)) g).length = g.length := by
  intro l
  induction l with
  | nil => intro g; rfl
  | cons i l ih =>
    intro g
    simp only [List.foldl_cons]
    rw [ih]
    exact List.length_set g i (f i)

theorem foldl_set_getElem?_not_mem (f : ℕ → ℚ) :
    ∀ (l : List ℕ) (g : List ℚ) (k : ℕ), k ∉ l →
      (l.foldl (fun g i => g.set i (f i)) g)[k]? = g[k]? := by
  intro l
  induction l with
  | nil => intro g k _; rfl
  | cons i l ih =>
    intro g k hk
    simp only [List.foldl_cons]
    rw [ih _ k fun h => hk (List.mem_cons_of_mem _ h)]
    exact List.getElem?_set_ne fun h => by
      subst h
      exact hk (List.mem_cons_self _ _)

theorem foldl_set_getElem?_mem (f : ℕ → ℚ) :
    ∀ (l : List ℕ) (g : List ℚ) (k : ℕ), k ∈ l → l.Nodup → k < g.length →
      (l.foldl (fun g i => g.set i (f i)) g)[k]? = some (f k) := by
  intro l
  induction l with
  | nil => intro g k hk _ _; exact absurd hk (List.not_mem_nil k)
  | cons i l ih =>
    intro g k hk hnd hlen
    simp only [List.foldl_cons]
    rcases List.mem_cons.1 hk with rfl | hk'
    · rw [foldl_set_getElem?_not_mem f l _ k (List.nodup_cons.1 hnd).1]
      exact List.getElem?_set_self hlen
    · exact ih _ k hk' (List.nodup_cons.1 hnd).2
        (by simpa [List.length_set] using hlen)

theorem gradient_constants_getD (n : ℕ) (control_signal_weights : List ℚ)
    (iwxp : List (List ℚ)) (i : ℕ) (hi : i < n) :
    (gradient_constants n control_signal_weights iwxp).getD i 0
      = control_signal_weights.getD i 0 + (iwxp.getD i []).sum := by
  unfold gradient_constants
  rw [List.getD_eq_getElem?_getD,
    foldl_set_getElem?_mem _ (List.range n) _ i (List.mem_range.2 hi)
      (List.nodup_range n) (by simpa using hi)]
  rfl

theorem gradient_constants_length (n : ℕ) (control_signal_weights : List ℚ)
    (iwxp : List (List ℚ)) :
    (gradient_constants n control_signal_weights iwxp).length = n := by
  unfold gradient_constants
  rw [foldl_set_length]
  exact List.length_replicate n 0

theorem ga_inner_body_gradient (cfg : LVOCConfig) (cost_weights : List ℚ)
    (v : GAVars) (i : ℕ) :
    (ga_inner_body cfg cost_weights v i).gradient
      = v.gradient.set i (v.gradient.getD i 0
          + -((cfg.control_signals.getD i default).derivative
                (v.control_signal_values.getD i 0) * cost_weights.getD i 0)) := rfl

theorem ga_inner_body_csv (cfg : LVOCConfig) (cost_weights : List ℚ)
    (v : GAVars) (i : ℕ) :
    (ga_inner_body cfg cost_weights v i).control_signal_values
      = v.control_signal_values.set i (v.control_signal_values.getD i 0
          + cfg.udpate_rate * (v.gradient.getD i 0
            + -((cfg.control_signals.getD i default).derivative
                  (v.control_signal_values.getD i 0) * cost_weights.getD i 0))) := rfl

theorem ga_inner_foldl_not_mem (cfg : LVOCConfig) (cost_weights : List ℚ) :
    ∀ (l : List ℕ) (v : GAVars) (k : ℕ), k ∉ l →
      (l.foldl (ga_inner_body cfg cost_weights) v).gradient[k]? = v.gradient[k]?
      ∧ (l.foldl (ga_inner_body cfg cost_weights) v).control_signal_values[k]?
          = v.control_signal_values[k]? := by
  intro l
  induction l with
  | nil => intro v k _; exact ⟨rfl, rfl⟩
  | cons i l ih =>
    intro v k hk
    have hik : i ≠ k := fun h => by
      subst h
      exact hk (List.mem_cons_self _ _)
    have hrest := ih (ga_inner_body cfg cost_weights v i) k
      fun h => hk (List.mem_cons_of_mem _ h)
    simp only [List.foldl_cons]
    refine ⟨?_, ?_⟩
    · rw [hrest.1, ga_inner_body_gradient]
      exact List.getElem?_set_ne hik
    · rw [hrest.2, ga_inner_body_csv]
      exact List.getElem?_set_ne hik

theorem ga_inner_foldl_mem (cfg : LVOCConfig) (cost_weights : List ℚ) :
    ∀ (l : List ℕ) (v : GAVars) (k : ℕ), k ∈ l → l.Nodup →
      k < v.control_signal_values.length → k < v.gradient.length →
      (l.foldl (ga_inner_body cfg cost_weights) v).gradient[k]?
          = some (v.gradient.getD k 0
              - (cfg.control_signals.getD k default).derivative
                  (v.control_signal_values.getD k 0) * cost_weights.getD k 0)
      ∧ (l.foldl (ga_inner_body cfg cost_weights) v).control_signal_values[k]?
          = some (v.control_signal_values.getD k 0
              + cfg.udpate_rate * (v.gradient.getD k 0
                - (cfg.control_signals.getD k default).derivative
                    (v.control_signal_values.getD k 0) * cost_weights.getD k 0)) := by
  intro l
  induction l with
  | nil => intro v k hk _ _ _; exact absurd hk (List.not_mem_nil k)
  | cons i l ih =>
    intro v k hk hnd hlc hlg
    simp only [List.foldl_cons]
    rcases List.mem_cons.1 hk with rfl | hk'
    · have hrest := ga_inner_foldl_not_mem cfg cost_weights l
        (ga_inner_body cfg cost_weights v k) k (List.nodup_cons.1 hnd).1
      refine ⟨?_, ?_⟩
      · rw [hrest.1, ga_inner_body_gradient, List.getElem?_set_self hlg]
        exact congrArg some (by ring)
      · rw [hrest.2, ga_inner_body_csv, List.getElem?_set_self hlc]
        exact congrArg some (by ring)
    · have hik : i ≠ k := fun h => by
        subst h
        exact (List.nodup_cons.1 hnd).1 hk'
      have hg : (ga_inner_body cfg cost_weights v i).gradient[k]?
          = v.gradient[k]? := by
        rw [ga_inner_body_gradient]
        exact List.getElem?_set_ne hik
      have hc : (ga_inner_body cfg cost_weights v i).control_signal_values[k]?
          = v.control_signal_values[k]? := by
        rw [ga_inner_body_csv]
        exact List.getElem?_set_ne hik
      have hgD : (ga_inner_body cfg cost_weights v i).gradient.getD k 0
          = v.gradient.getD k 0 := by
        rw [List.getD_eq_getElem?_getD, List.getD_eq_getElem?_getD, hg]
      have hcD : (ga_inner_body cfg cost_weights v i).control_signal_values.getD k 0
          = v.control_signal_values.getD k 0 := by
        rw [List.getD_eq_getElem?_getD, List.getD_eq_getElem?_getD, hc]
      have hlc' : k < (ga_inner_body cfg cost_weights v i).control_signal_values.length := by
        rw [ga_inner_body_csv, List.length_set]
        exact hlc
      have hlg' : k < (ga_inner_body cfg cost_weights v i).gradient.length := by
        rw [ga_inner_body_gradient, List.length_set]
        exact hlg
      have := ih (ga_inner_body cfg cost_weights v i) k hk'
        (List.nodup_cons.1 hnd).2 hlc' hlg'
      rw [hgD, hcD] at this
      exact this

/-- C5: in each iteration of gradient ascent, for every controllable
parameter `i` the gradient term equals that parameter's learned weight
(`prediction_weights[ctl][i]`) plus the sum of its interaction-weight ×
predictor contributions, minus the derivative of its intensity-cost function
evaluated at the parameter's current intensity/value, scaled by the
corresponding cost weight (first conjunct); the allocation is then updated
by `allocation += udpate_rate * gradient` (second conjunct); and the while
loop's iteration (`ga_loop_step`) adopts exactly these updated
control-signal values (third conjunct). -/
theorem gradient_ascent_iteration_update (cfg : LVOCConfig)
    (predictors : List ℚ) (w : PredictionWeights) (s : GAState) (i : ℕ)
    (hi : i < s.control_signal_values.length)
    (hsig : i < cfg.control_signals.length)
    (hintr : i < w.w_intrxn.length) :
    (ga_inner_loop cfg w.w_cst
        ⟨gradient_constants cfg.control_signals.length w.w_ctl
            (interaction_weights_x_predictors w.w_intrxn predictors),
          s.control_signal_values, s.costs⟩).gradient.getD i 0
      = w.w_ctl.getD i 0
          + (List.zipWith (· * ·) (w.w_intrxn.getD i []) predictors).sum
          - (cfg.control_signals.getD i default).derivative
              (s.control_signal_values.getD i 0) * w.w_cst.getD i 0
    ∧ (ga_inner_loop cfg w.w_cst
        ⟨gradient_constants cfg.control_signals.length w.w_ctl
            (interaction_weights_x_predictors w.w_intrxn predictors),
          s.control_signal_values, s.costs⟩).control_signal_values.getD i 0
      = s.control_signal_values.getD i 0
          + cfg.udpate_rate * (w.w_ctl.getD i 0
            + (List.zipWith (· * ·) (w.w_intrxn.getD i []) predictors).sum
            - (cfg.control_signals.getD i default).derivative
                (s.control_signal_values.getD i 0) * w.w_cst.getD i 0)
    ∧ (ga_loop_step cfg predictors w
          (gradient_constants cfg.control_signals.length w.w_ctl
            (interaction_weights_x_predictors w.w_intrxn predictors))
          w.w_cst s).1.control_signal_values
      = (ga_inner_loop cfg w.w_cst
          ⟨gradient_constants cfg.control_signals.length w.w_ctl
              (interaction_weights_x_predictors w.w_intrxn predictors),
            s.control_signal_values, s.costs⟩).control_signal_values := by
  have hgclen : i < (gradient_constants cfg.control_signals.length w.w_ctl
      (interaction_weights_x_predictors w.w_intrxn predictors)).length := by
    rw [gradient_constants_length]
    exact hsig
  have hmem := ga_inner_foldl_mem cfg w.w_cst
    (List.range s.control_signal_values.length)
    ⟨gradient_constants cfg.control_signals.length w.w_ctl
        (interaction_weights_x_predictors w.w_intrxn predictors),
      s.control_signal_values, s.costs⟩
    i (List.mem_range.2 hi) (List.nodup_range _) hi hgclen
  have hgc : (gradient_constants cfg.control_signals.length w.w_ctl
      (interaction_weights_x_predictors w.w_intrxn predictors)).getD i 0
      = w.w_ctl.getD i 0
        + (List.zipWith (· * ·) (w.w_intrxn.getD i []) predictors).sum := by
    rw [gradient_constants_getD _ _ _ i hsig]
    congr 1
    simp only [interaction_weights_x_predictors, List.getD_eq_getElem?_getD,
      List.getElem?_map, List.getElem?_eq_getElem hintr, Option.map_some',
      Option.getD_some]
  refine ⟨?_, ?_, rfl⟩
  · show ((List.range s.control_signal_values.length).foldl
        (ga_inner_body cfg w.w_cst) _).gradient.getD i 0 = _
    rw [List.getD_eq_getElem?_getD, hmem.1, Option.getD_some, hgc]
  · show ((List.range s.control_signal_values.length).foldl
        (ga_inner_body cfg w.w_cst) _).control_signal_values.getD i 0 = _
    rw [List.getD_eq_getElem?_getD, hmem.2, Option.getD_some, hgc]

/-- A concrete one-signal configuration used to witness the per-iteration
gradient formula. -/
def c5cfg : LVOCConfig := ⟨1, 5, 2, [⟨fun x => x * x, fun x => 2 * x⟩]⟩

/-- Concrete prediction weights for the witness. -/
def c5w : PredictionWeights := ⟨[1], [[4]], [5], [6]⟩

/-- Concrete loop state for the witness. -/
def c5s : GAState := ⟨[7], [0], 0, 0, 0, false⟩

/-- Witness for C5: the per-iteration gradient and update formulas at a
concrete one-signal input. -/
theorem gradient_ascent_iteration_update_witness :
    (0 < c5s.control_signal_values.length
      ∧ 0 < c5cfg.control_signals.length
      ∧ 0 < c5w.w_intrxn.length)
    ∧ ((ga_inner_loop c5cfg c5w.w_cst
          ⟨gradient_constants c5cfg.control_signals.length c5w.w_ctl
              (interaction_weights_x_predictors c5w.w_intrxn [3]),
            c5s.control_signal_values, c5s.costs⟩).gradient.getD 0 0
        = c5w.w_ctl.getD 0 0
            + (List.zipWith (· * ·) (c5w.w_intrxn.getD 0 []) [3]).sum
            - (c5cfg.control_signals.getD 0 default).derivative
                (c5s.control_signal_values.getD 0 0) * c5w.w_cst.getD 0 0
      ∧ (ga_inner_loop c5cfg c5w.w_cst
          ⟨gradient_constants c5cfg.control_signals.length c5w.w_ctl
              (interaction_weights_x_predictors c5w.w_intrxn [3]),
            c5s.control_signal_values, c5s.costs⟩).control_signal_values.getD 0 0
        = c5s.control_signal_values.getD 0 0
            + c5cfg.udpate_rate * (c5w.w_ctl.getD 0 0
              + (List.zipWith (· * ·) (c5w.w_intrxn.getD 0 []) [3]).sum
              - (c5cfg.control_signals.getD 0 default).derivative
                  (c5s.control_signal_values.getD 0 0) * c5w.w_cst.getD 0 0)
      ∧ (ga_loop_step c5cfg [3] c5w
            (gradient_constants c5cfg.control_signals.length c5w.w_ctl
              (interaction_weights_x_predictors c5w.w_intrxn [3]))
            c5w.w_cst c5s).1.control_signal_values
        = (ga_inner_loop c5cfg c5w.w_cst
            ⟨gradient_constants c5cfg.control_signals.length c5w.w_ctl
                (interaction_weights_x_predictors c5w.w_intrxn [3]),
              c5s.control_signal_values, c5s.costs⟩).control_signal_values) :=
  ⟨⟨by decide, by decide, by decide⟩,
    gradient_ascent_iteration_update c5cfg [3] c5w c5s 0
      (by decide) (by decide) (by decide)⟩

/-! ## Controller.run_simulation / run_simulations / _execute (C1, C2, C6) -/

/-- One allocation policy: a row of `control_signal_search_space`. -/
abbrev AllocationPolicy : Type := List ℚ

/-- The `context.execution_phase` values the runner assigns
(`ContextFlags.SIMULATION` and `ContextFlags.PROCESSING`, controller.py
lines 858 and 878), plus the idle flag a context can hold outside
execution. -/
inductive Phase where
  | PROCESSING : Phase
  | SIMULATION : Phase
  | IDLE : Phase
deriving DecidableEq

/-- The per-node state of the composition: its node values in the real
context, with the two projections the runner reads after each trial kept
explicit — `output_CIM.output_values` (line 869) and
`objective_mechanism.output_values`, the monitored states (line 876). -/
structure NodeValues where
  nodes : List ℚ
  output_CIM : List ℚ
  objective : List ℚ
deriving DecidableEq

/-- The composition state visible to the Controller: per-node values,
`simulation_results` (appended to at line 869) and the context's execution
phase. -/
structure CompositionState where
  values : NodeValues
  simulation_results : List (List ℚ)
  execution_phase : Phase
deriving DecidableEq

/-- The exceptions the embedded runner can propagate: an exception raised by
the agent representation inside `composition.run`, and the `ValueError`
numpy raises for `if allocation_policy:` on an array of two or more
elements (line 846). -/
inductive RunError where
  | agentError : RunError
  | truthValueAmbiguous : RunError
deriving DecidableEq

/-- Modelled from the spec: the agent representation's execution primitive
(`composition.run`, not under `src/`; spec section 6:
`execute(inputs, context_id) -> per_node_output_values`).  Given the
controller's current control-signal values and one trial's inputs it either
raises or produces the new per-node values; a fixed (deterministic) agent
representation is a pure function. -/
abbrev AgentRep : Type :=
  List ℚ → List ℚ → NodeValues → Except RunError NodeValues

/-- The controller state the runner touches: `self.value` (one entry per
ControlSignal; `np.atleast_1d` of each scalar is modelled by the scalar) and
the `allocation_samples` of its control signals, which
`get_allocation_policies` reads. -/
structure Controller where
  value : List ℚ
  allocation_samples : List (List ℚ)
deriving DecidableEq

/-- Embeds `apply_control_signal_values` (controller.py lines 812-818):
`for i in range(len(control_signal_values)): self.value[i] =
np.atleast_1d(control_signal_values[i])`.  (Indices are in range at every
source call site: one entry per control signal.) -/
def apply_control_signal_values (ctrl : Controller)
    (control_signal_values : List ℚ) : Controller :=
  { ctrl with
    value := (List.range control_signal_values.length).foldl
      (fun v i => v.set i (control_signal_values.getD i 0)) ctrl.value }

/-- The Python/numpy truth test `if allocation_policy:` (line 846): `None`
and a size-0 array are falsy, a size-1 array is truthy iff its element is
nonzero, and an array of two or more elements raises
`ValueError: the truth value of an array with more than one element is
ambiguous`. -/
def policy_truthy : Option AllocationPolicy → Except RunError Bool
  | none => Except.ok false
  | some [] => Except.ok false
  | some [x] => Except.ok (decide (x ≠ 0))
  | some (_ :: _ :: _) => Except.error RunError.truthValueAmbiguous

/-- The trial loop of `run_simulation` (lines 853-880), over the list of
trial indices: per trial, set `execution_phase = SIMULATION` (line 858), run
the composition on that trial's predicted input — the source has no
try/except, so an exception from the agent representation propagates —
append `output_CIM.output_values` to `simulation_results` (line 869), read
the monitored states from the objective mechanism (line 876), set
`execution_phase = PROCESSING` (line 878) and collect the monitored states
into `allocation_policy_outcomes` (line 879).  `other_simulation_data` and
`call_after_simulation` carry nothing the claims depend on and are omitted
(line 880 appends the list to itself). -/
def run_trials (agent : AgentRep) (ctrl : Controller)
    (predicted_input : ℕ → List ℚ) :
    List ℕ → CompositionState → List (List ℚ) →
      Except RunError (CompositionState × List (List ℚ))
  | [], comp, outcomes => Except.ok (comp, outcomes)
  | t :: ts, comp, outcomes =>
    match agent ctrl.value (predicted_input t)
        ({ comp with execution_phase := Phase.SIMULATION }).values with
    | Except.error e => Except.error e
    | Except.ok nv =>
      run_trials agent ctrl predicted_input ts
        { values := nv
          simulation_results := comp.simulation_results ++ [nv.output_CIM]
          execution_phase := Phase.PROCESSING }
        (outcomes ++ [nv.objective])

/-- Embeds `Controller.run_simulation` (controller.py lines 837-882):
`if allocation_policy: self.apply_control_signal_values(...)` (lines
846-847), then a fresh simulation execution id (line 849; the id itself is
not observable in the claims), then the trial loop.  `Except` models the
exception propagating out of the call; the claims only concern the raised
error or the state after a successful call. -/
def run_simulation (agent : AgentRep) (ctrl : Controller) (comp : CompositionState)
    (allocation_policy : Option AllocationPolicy) (num_trials : ℕ)
    (predicted_input : ℕ → List ℚ) :
    Except RunError (Controller × CompositionState × List (List ℚ)) :=
  match policy_truthy allocation_policy with
  | Except.error e => Except.error e
  | Except.ok b =>
    match b, allocation_policy with
    | true, some p =>
      match run_trials agent (apply_control_signal_values ctrl p)
          predicted_input (List.range num_trials) comp [] with
      | Except.error e => Except.error e
      | Except.ok (comp', outcomes) =>
        Except.ok (apply_control_signal_values ctrl p, comp', outcomes)
    | _, _ =>
      match run_trials agent ctrl predicted_input (List.range num_trials)
          comp [] with
      | Except.error e => Except.error e
      | Except.ok (comp', outcomes) => Except.ok (ctrl, comp', outcomes)

/-- Modelled from the spec: `composition.before_simulations` (not under
`src/`).  Per spec section 4.5 the runner snapshots the real context's
per-node state so that exploratory simulations cannot corrupt it; of the
source's return `(predicted_input, num_trials, reinitialize_values,
node_values)`, the first two are passed around as parameters here,
`reinitialize_values` is opaque, and `node_values` is the snapshot. -/
def before_simulations (comp : CompositionState) : NodeValues := comp.values

/-- Modelled from the spec: `composition.after_simulations(
reinitialize_values, node_values)` (not under `src/`).  Per spec sections
4.5 and 8 (isolation of the real context's monitored outputs) it restores
the saved per-node state; it does not touch `simulation_results`, which the
source extends during the simulations (line 869) as their record. -/
def after_simulations (comp : CompositionState) (node_values : NodeValues) :
    CompositionState :=
  { comp with values := node_values }

/-- The candidate loop of `run_simulations` (lines 890-899), threading the
controller and composition state and accumulating
`(allocation_policy, allocation_policy_outcomes)` pairs; an exception from
any candidate's simulation propagates (no try/except in the source). -/
def run_policies (agent : AgentRep) (predicted_input : ℕ → List ℚ)
    (num_trials : ℕ) :
    List AllocationPolicy → Controller → CompositionState →
      List (AllocationPolicy × List (List ℚ)) →
      Except RunError
        (Controller × CompositionState × List (AllocationPolicy × List (List ℚ)))
  | [], ctrl, comp, acc => Except.ok (ctrl, comp, acc)
  | p :: ps, ctrl, comp, acc =>
    match run_simulation agent ctrl comp (some p) num_trials predicted_input with
    | Except.error e => Except.error e
    | Except.ok (ctrl', comp', outcomes) =>
      run_policies agent predicted_input num_trials ps ctrl' comp'
        (acc ++ [(p, outcomes)])

/-- Embeds `Controller.run_simulations` (controller.py lines 884-903):
snapshot via `before_simulations`, run every allocation policy's simulation,
restore via `after_simulations`, return the outcome list. -/
def run_simulations (agent : AgentRep) (ctrl : Controller) (comp : CompositionState)
    (allocation_policies : List AllocationPolicy) (num_trials : ℕ)
    (predicted_input : ℕ → List ℚ) :
    Except RunError
      (Controller × CompositionState × List (AllocationPolicy × List (List ℚ))) :=
  match run_policies agent predicted_input num_trials allocation_policies
      ctrl comp [] with
  | Except.error e => Except.error e
  | Except.ok (ctrl', comp', outcome_list) =>
    Except.ok (ctrl', after_simulations comp' (before_simulations comp),
      outcome_list)

/-- Modelled from the spec: `ControlSignalGridSearch2` (psyneulink functions
module, not under `src/`), the Controller's default `function`, applied by
`_execute` to the simulation data (spec section 4.6, GridSearch): compute
each candidate's net value from its simulation outcomes via the value
function, track the running maximum — replacing it only on a strictly
greater value, so ties go to the first-seen candidate — and return the best
policy (`none` for an empty search space, which the spec makes an error). -/
def grid_search_step (value_function : List (List ℚ) → ℚ)
    (best : Option (AllocationPolicy × ℚ))
    (pd : AllocationPolicy × List (List ℚ)) : Option (AllocationPolicy × ℚ) :=
  match best with
  | none => some (pd.1, value_function pd.2)
  | some (bp, bv) =>
    if value_function pd.2 > bv then some (pd.1, value_function pd.2)
    else some (bp, bv)

def ControlSignalGridSearch2 (value_function : List (List ℚ) → ℚ)
    (simulation_data : List (AllocationPolicy × List (List ℚ))) :
    Option AllocationPolicy :=
  (simulation_data.foldl (grid_search_step value_function) none).map Prod.fst

/-- Embeds `Controller._execute` (controller.py lines 928-996): build
`control_signal_search_space = get_allocation_policies()` (line 946), run
`run_simulations` over it (line 950), then apply `self.function` — the
default `ControlSignalGridSearch2`, modelled from the spec — to the
simulation data and return the resulting allocation policy. -/
def Controller_execute (agent : AgentRep) (ctrl : Controller)
    (comp : CompositionState) (num_trials : ℕ) (predicted_input : ℕ → List ℚ)
    (value_function : List (List ℚ) → ℚ) :
    Except RunError (Option AllocationPolicy) :=
  match run_simulations agent ctrl comp
      (get_allocation_policies ctrl.allocation_samples) num_trials
      predicted_input with
  | Except.error e => Except.error e
  | Except.ok (_, _, simulation_data) =>
    Except.ok (ControlSignalGridSearch2 value_function simulation_data)

theorem run_policies_error_of_mem (agent : AgentRep)
    (predicted_input : ℕ → List ℚ) (num_trials : ℕ) (p : AllocationPolicy)
    (l₂ : List AllocationPolicy) (e : RunError) :
    ∀ (l₁ : List AllocationPolicy) (ctrl : Controller)
      (comp : CompositionState) (acc : List (AllocationPolicy × List (List ℚ)))
      (ctrl₁ : Controller) (comp₁ : CompositionState)
      (out₁ : List (AllocationPolicy × List (List ℚ))),
      run_policies agent predicted_input num_trials l₁ ctrl comp acc
        = Except.ok (ctrl₁, comp₁, out₁) →
      run_simulation agent ctrl₁ comp₁ (some p) num_trials predicted_input
        = Except.error e →
      run_policies agent predicted_input num_trials (l₁ ++ p :: l₂) ctrl comp acc
        = Except.error e := by
  intro l₁
  induction l₁ with
  | nil =>
    intro ctrl comp acc ctrl₁ comp₁ out₁ h₁ h₂
    simp only [run_policies, Except.ok.injEq, Prod.mk.injEq] at h₁
    obtain ⟨rfl, rfl, rfl⟩ := h₁
    simp only [List.nil_append, run_policies, h₂]
  | cons q l₁ ih =>
    intro ctrl comp acc ctrl₁ comp₁ out₁ h₁ h₂
    rw [List.cons_append]
    cases hq : run_simulation agent ctrl comp (some q) num_trials
        predicted_input with
    | error e' =>
      simp only [run_policies, hq] at h₁
      exact Except.noConfusion h₁
    | ok r =>
      obtain ⟨ctrl', comp', outs⟩ := r
      simp only [run_policies, hq] at h₁ ⊢
      exact ih ctrl' comp' (acc ++ [(q, outs)]) ctrl₁ comp₁ out₁ h₁ h₂

/-- C1 (amended): if the agent representation raises during a trial of one
candidate's simulation, the exception propagates out of `run_simulation` and
`run_simulations`: the whole search aborts with that exception — the failed
candidate is not assigned any `-inf` score, and the remaining candidates are
not evaluated.  (The source's `run_simulation`/`run_simulations` have no
try/except.)  Here `l₁` is the list of candidates evaluated successfully
before the failing candidate `p`, and `l₂` the candidates after it. -/
theorem run_simulations_aborts_on_agent_exception (agent : AgentRep)
    (predicted_input : ℕ → List ℚ) (num_trials : ℕ)
    (l₁ : List AllocationPolicy) (p : AllocationPolicy)
    (l₂ : List AllocationPolicy) (ctrl : Controller) (comp : CompositionState)
    (ctrl₁ : Controller) (comp₁ : CompositionState)
    (out₁ : List (AllocationPolicy × List (List ℚ))) (e : RunError)
    (h₁ : run_policies agent predicted_input num_trials l₁ ctrl comp []
      = Except.ok (ctrl₁, comp₁, out₁))
    (h₂ : run_simulation agent ctrl₁ comp₁ (some p) num_trials predicted_input
      = Except.error e) :
    run_simulations agent ctrl comp (l₁ ++ p :: l₂) num_trials predicted_input
      = Except.error e := by
  unfold run_simulations
  rw [run_policies_error_of_mem agent predicted_input num_trials p l₂ e l₁
    ctrl comp [] ctrl₁ comp₁ out₁ h₁ h₂]

instance exceptDecidableEq {ε α : Type} [DecidableEq ε] [DecidableEq α] :
    DecidableEq (Except ε α) := fun a b =>
  match a, b with
  | Except.error e, Except.error e' =>
    if h : e = e' then isTrue (by rw [h])
    else isFalse (by intro hh; cases hh; exact h rfl)
  | Except.ok x, Except.ok y =>
    if h : x = y then isTrue (by rw [h])
    else isFalse (by intro hh; cases hh; exact h rfl)
  | Except.error _, Except.ok _ => isFalse (by intro hh; cases hh)
  | Except.ok _, Except.error _ => isFalse (by intro hh; cases hh)

instance : DecidableEq (List (AllocationPolicy × List (List ℚ))) :=
  inferInstance

instance : DecidableEq (CompositionState × List (AllocationPolicy × List (List ℚ))) :=
  inferInstance

instance : DecidableEq
    (Controller × CompositionState × List (AllocationPolicy × List (List ℚ))) :=
  inferInstance

/-- A concrete agent representation that raises whenever some control-signal
allocation exceeds the feasibility threshold 1 (the scenario-C pattern), and
otherwise leaves the node values unchanged. -/
def c1agent : AgentRep := fun control_signal_values _inputs nv =>
  if control_signal_values.any (fun a => decide (a > 1)) then
    Except.error RunError.agentError
  else Except.ok nv

/-- Concrete controller for the C1 counterexample: one control signal with
`allocation_samples = [1, 2]`. -/
def c1ctrl : Controller := ⟨[0], [[1, 2]]⟩

/-- Concrete composition state for the C1 counterexample. -/
def c1comp : CompositionState := ⟨⟨[1], [2], [3]⟩, [], Phase.PROCESSING⟩

/-- Counterexample to C1 as stated: with the agent representation raising on
the second candidate policy `[2]` (allocation above the threshold),
`run_simulations` over the candidates `[[1], [2]]` does not abort only that
candidate's evaluation, assigns no `-inf`, and does not return a feasible
best from the remaining candidates — the exception propagates and the whole
search aborts. -/
theorem run_simulations_does_not_continue_counterexample :
    run_simulations c1agent c1ctrl c1comp [[1], [2]] 1 (fun _ => [0])
      = Except.error RunError.agentError := by
  decide

/-- Witness for the amended C1: the concrete split `l₁ = [[1]]`, failing
candidate `p = [2]`, `l₂ = []` of the counterexample's candidate list. -/
theorem run_simulations_aborts_on_agent_exception_witness :
    (run_policies c1agent (fun _ => [0]) 1 [[1]] c1ctrl c1comp []
        = Except.ok (⟨[1], [[1, 2]]⟩,
            ⟨⟨[1], [2], [3]⟩, [[2]], Phase.PROCESSING⟩, [([1], [[3]])])
      ∧ run_simulation c1agent ⟨[1], [[1, 2]]⟩
          ⟨⟨[1], [2], [3]⟩, [[2]], Phase.PROCESSING⟩ (some [2]) 1 (fun _ => [0])
        = Except.error RunError.agentError)
    ∧ run_simulations c1agent c1ctrl c1comp ([[1]] ++ [2] :: []) 1 (fun _ => [0])
      = Except.error RunError.agentError :=
  ⟨⟨by decide, by decide⟩,
    run_simulations_aborts_on_agent_exception c1agent (fun _ => [0]) 1
      [[1]] [2] [] c1ctrl c1comp ⟨[1], [[1, 2]]⟩
      ⟨⟨[1], [2], [3]⟩, [[2]], Phase.PROCESSING⟩ [([1], [[3]])]
      RunError.agentError (by decide) (by decide)⟩

theorem run_trials_state (agent : AgentRep) (ctrl : Controller)
    (predicted_input : ℕ → List ℚ) :
    ∀ (ts : List ℕ) (comp : CompositionState) (outs : List (List ℚ))
      (comp' : CompositionState) (outs' : List (List ℚ)),
      run_trials agent ctrl predicted_input ts comp outs
        = Except.ok (comp', outs') →
      (∃ tail, comp'.simulation_results = comp.simulation_results ++ tail
        ∧ tail.length = ts.length)
      ∧ (comp'.execution_phase = comp.execution_phase
        ∨ comp'.execution_phase = Phase.PROCESSING) := by
  intro ts
  induction ts with
  | nil =>
    intro comp outs comp' outs' h
    simp only [run_trials, Except.ok.injEq, Prod.mk.injEq] at h
    obtain ⟨rfl, rfl⟩ := h
    exact ⟨⟨[], by simp⟩, Or.inl rfl⟩
  | cons t ts ih =>
    intro comp outs comp' outs' h
    simp only [run_trials] at h
    cases ha : agent ctrl.value (predicted_input t)
        ({ comp with execution_phase := Phase.SIMULATION }).values with
    | error e =>
      rw [ha] at h
      exact Except.noConfusion h
    | ok nv =>
      rw [ha] at h
      have := ih
        { values := nv
          simulation_results := comp.simulation_results ++ [nv.output_CIM]
          execution_phase := Phase.PROCESSING }
        (outs ++ [nv.objective]) comp' outs' h
      obtain ⟨⟨tail, htail, hlen⟩, hphase⟩ := this
      refine ⟨⟨[nv.output_CIM] ++ tail, ?_, ?_⟩, ?_⟩
      · rw [htail]
        simp
      · simp only [List.length_append, List.length_cons, List.length_nil]
        omega
      · rcases hphase with hp | hp
        · exact Or.inr hp
        · exact Or.inr hp

theorem run_simulation_state (agent : AgentRep) (ctrl : Controller)
    (comp : CompositionState) (p : Option AllocationPolicy) (num_trials : ℕ)
    (predicted_input : ℕ → List ℚ) (ctrl' : Controller)
    (comp' : CompositionState) (outs : List (List ℚ))
    (h : run_simulation agent ctrl comp p num_trials predicted_input
      = Except.ok (ctrl', comp', outs)) :
    (∃ tail, comp'.simulation_results = comp.simulation_results ++ tail
      ∧ tail.length = num_trials)
    ∧ (comp'.execution_phase = comp.execution_phase
      ∨ comp'.execution_phase = Phase.PROCESSING) := by
  have key : ∀ (ctrl₀ : Controller),
      run_trials agent ctrl₀ predicted_input (List.range num_trials) comp []
          = Except.ok (comp', outs) →
      (∃ tail, comp'.simulation_results = comp.simulation_results ++ tail
        ∧ tail.length = num_trials)
      ∧ (comp'.execution_phase = comp.execution_phase
        ∨ comp'.execution_phase = Phase.PROCESSING) := by
    intro ctrl₀ hr
    have := run_trials_state agent ctrl₀ predicted_input
      (List.range num_trials) comp [] comp' outs hr
    simpa [List.length_range] using this
  unfold run_simulation at h
  cases ht : policy_truthy p with
  | error e =>
    rw [ht] at h
    exact Except.noConfusion h
  | ok b =>
    rw [ht] at h
    cases b with
    | true =>
      cases p with
      | none =>
        dsimp only at h
        cases hr : run_trials agent ctrl predicted_input
            (List.range num_trials) comp [] with
        | error e =>
          rw [hr] at h
          exact Except.noConfusion h
        | ok r =>
          obtain ⟨comp₀, outs₀⟩ := r
          rw [hr] at h
          simp only [Except.ok.injEq, Prod.mk.injEq] at h
          obtain ⟨-, rfl, rfl⟩ := h
          exact key ctrl hr
      | some q =>
        dsimp only at h
        cases hr : run_trials agent (apply_control_signal_values ctrl q)
            predicted_input (List.range num_trials) comp [] with
        | error e =>
          rw [hr] at h
          exact Except.noConfusion h
        | ok r =>
          obtain ⟨comp₀, outs₀⟩ := r
          rw [hr] at h
          simp only [Except.ok.injEq, Prod.mk.injEq] at h
          obtain ⟨-, rfl, rfl⟩ := h
          exact key (apply_control_signal_values ctrl q) hr
    | false =>
      cases p with
      | none =>
        dsimp only at h
        cases hr : run_trials agent ctrl predicted_input
            (List.range num_trials) comp [] with
        | error e =>
          rw [hr] at h
          exact Except.noConfusion h
        | ok r =>
          obtain ⟨comp₀, outs₀⟩ := r
          rw [hr] at h
          simp only [Except.ok.injEq, Prod.mk.injEq] at h
          obtain ⟨-, rfl, rfl⟩ := h
          exact key ctrl hr
      | some q =>
        dsimp only at h
        cases hr : run_trials agent ctrl predicted_input
            (List.range num_trials) comp [] with
        | error e =>
          rw [hr] at h
          exact Except.noConfusion h
        | ok r =>
          obtain ⟨comp₀, outs₀⟩ := r
          rw [hr] at h
          simp only [Except.ok.injEq, Prod.mk.injEq] at h
          obtain ⟨-, rfl, rfl⟩ := h
          exact key ctrl hr

theorem run_policies_state (agent : AgentRep) (predicted_input : ℕ → List ℚ)
    (num_trials : ℕ) :
    ∀ (ps : List AllocationPolicy) (ctrl : Controller)
      (comp : CompositionState) (acc : List (AllocationPolicy × List (List ℚ)))
      (ctrl₁ : Controller) (comp₁ : CompositionState)
      (out₁ : List (AllocationPolicy × List (List ℚ))),
      run_policies agent predicted_input num_trials ps ctrl comp acc
        = Except.ok (ctrl₁, comp₁, out₁) →
      (∃ tail, comp₁.simulation_results = comp.simulation_results ++ tail
        ∧ tail.length = ps.length * num_trials)
      ∧ (comp₁.execution_phase = comp.execution_phase
        ∨ comp₁.execution_phase = Phase.PROCESSING) := by
  intro ps
  induction ps with
  | nil =>
    intro ctrl comp acc ctrl₁ comp₁ out₁ h
    simp only [run_policies, Except.ok.injEq, Prod.mk.injEq] at h
    obtain ⟨-, rfl, -⟩ := h
    exact ⟨⟨[], by simp⟩, Or.inl rfl⟩
  | cons q ps ih =>
    intro ctrl comp acc ctrl₁ comp₁ out₁ h
    simp only [run_policies] at h
    cases hq : run_simulation agent ctrl comp (some q) num_trials
        predicted_input with
    | error e =>
      rw [hq] at h
      exact Except.noConfusion h
    | ok r =>
      obtain ⟨ctrl', comp', outs⟩ := r
      rw [hq] at h
      have hsim := run_simulation_state agent ctrl comp (some q) num_trials
        predicted_input ctrl' comp' outs hq
      have hrest := ih ctrl' comp' (acc ++ [(q, outs)]) ctrl₁ comp₁ out₁ h
      obtain ⟨⟨t₁, ht₁, hl₁⟩, hp₁⟩ := hsim
      obtain ⟨⟨t₂, ht₂, hl₂⟩, hp₂⟩ := hrest
      refine ⟨⟨t₁ ++ t₂, ?_, ?_⟩, ?_⟩
      · rw [ht₂, ht₁, List.append_assoc]
      · simp only [List.length_append, List.length_cons, Nat.succ_mul]
        omega
      · rcases hp₂ with hp | hp
        · rw [hp]
          exact hp₁
        · exact Or.inr hp

/-- C2 (amended): a successful `run_simulations` call leaves the real
context's per-node state — and with it the monitored outputs of the
objective mechanism — exactly as before the call (restored by the
snapshot/restore of `before_simulations`/`after_simulations`), but it does
mutate real state: the composition's `simulation_results` list is extended
by one entry per simulated trial (`policies × trials` entries in all), and
the context's `execution_phase` is left at `PROCESSING` whenever any trial
ran. -/
theorem run_simulations_isolation (agent : AgentRep) (ctrl : Controller)
    (comp : CompositionState) (policies : List AllocationPolicy)
    (num_trials : ℕ) (predicted_input : ℕ → List ℚ) (ctrl' : Controller)
    (comp' : CompositionState)
    (data : List (AllocationPolicy × List (List ℚ)))
    (h : run_simulations agent ctrl comp policies num_trials predicted_input
      = Except.ok (ctrl', comp', data)) :
    comp'.values = comp.values
    ∧ (∃ tail, comp'.simulation_results = comp.simulation_results ++ tail
        ∧ tail.length = policies.length * num_trials)
    ∧ (comp'.execution_phase = comp.execution_phase
      ∨ comp'.execution_phase = Phase.PROCESSING) := by
  unfold run_simulations at h
  cases hp : run_policies agent predicted_input num_trials policies ctrl comp []
      with
  | error e =>
    rw [hp] at h
    exact Except.noConfusion h
  | ok r =>
    obtain ⟨ctrl₁, comp₁, out₁⟩ := r
    rw [hp] at h
    simp only [Except.ok.injEq, Prod.mk.injEq] at h
    obtain ⟨-, rfl, -⟩ := h
    have := run_policies_state agent predicted_input num_trials policies
      ctrl comp [] ctrl₁ comp₁ out₁ hp
    exact ⟨rfl, this.1, this.2⟩

/-- A concrete agent representation that never raises and leaves the node
values unchanged, for exercising the isolation behaviour. -/
def c2agent : AgentRep := fun _ _ nv => Except.ok nv

/-- Concrete controller for the C2 counterexample. -/
def c2ctrl : Controller := ⟨[0], [[1]]⟩

/-- Concrete composition state for the C2 counterexample, with an empty
`simulation_results` record before the call. -/
def c2comp : CompositionState := ⟨⟨[1], [2], [3]⟩, [], Phase.PROCESSING⟩

/-- Counterexample to C2 as stated: a successful simulated evaluation leaves
the node values and monitored outputs restored, but it has mutated real
state — the composition's `simulation_results` (appended to at
controller.py line 869 and not restored) differ before and after the
call. -/
theorem run_simulations_mutates_simulation_results_counterexample :
    run_simulations c2agent c2ctrl c2comp [[1]] 1 (fun _ => [0])
      = Except.ok (⟨[1], [[1]]⟩,
          ⟨⟨[1], [2], [3]⟩, [[2]], Phase.PROCESSING⟩, [([1], [[3]])])
    ∧ (⟨⟨[1], [2], [3]⟩, [[2]], Phase.PROCESSING⟩
        : CompositionState).simulation_results
      ≠ c2comp.simulation_results := by
  decide

/-- Witness for the amended C2 at the concrete run of the counterexample. -/
theorem run_simulations_isolation_witness :
    run_simulations c2agent c2ctrl c2comp [[1]] 1 (fun _ => [0])
        = Except.ok (⟨[1], [[1]]⟩,
            ⟨⟨[1], [2], [3]⟩, [[2]], Phase.PROCESSING⟩, [([1], [[3]])])
    ∧ ((⟨⟨[1], [2], [3]⟩, [[2]], Phase.PROCESSING⟩
          : CompositionState).values = c2comp.values
      ∧ (∃ tail, (⟨⟨[1], [2], [3]⟩, [[2]], Phase.PROCESSING⟩
            : CompositionState).simulation_results
          = c2comp.simulation_results ++ tail
          ∧ tail.length = ([[1]] : List AllocationPolicy).length * 1)
      ∧ ((⟨⟨[1], [2], [3]⟩, [[2]], Phase.PROCESSING⟩
            : CompositionState).execution_phase = c2comp.execution_phase
        ∨ (⟨⟨[1], [2], [3]⟩, [[2]], Phase.PROCESSING⟩
            : CompositionState).execution_phase = Phase.PROCESSING)) :=
  ⟨by decide,
    run_simulations_isolation c2agent c2ctrl c2comp [[1]] 1 (fun _ => [0])
      ⟨[1], [[1]]⟩ ⟨⟨[1], [2], [3]⟩, [[2]], Phase.PROCESSING⟩ [([1], [[3]])]
      (by decide)⟩

theorem grid_fold_first_seen (value_function : List (List ℚ) → ℚ)
    (data : List (AllocationPolicy × List (List ℚ))) :
    (data = [] ∧ data.foldl (grid_search_step value_function) none = none)
    ∨ ∃ pre x post, data = pre ++ x :: post
        ∧ data.foldl (grid_search_step value_function) none
            = some (x.1, value_function x.2)
        ∧ (∀ y ∈ pre, value_function y.2 < value_function x.2)
        ∧ (∀ y ∈ data, value_function y.2 ≤ value_function x.2) := by
  induction data using List.reverseRecOn with
  | nil => exact Or.inl ⟨rfl, rfl⟩
  | append_singleton l y ih =>
    rw [List.foldl_append]
    rcases ih with ⟨rfl, hfold⟩ | ⟨pre, x, post, hdec, hfold, hpre, hall⟩
    · rw [hfold]
      refine Or.inr ⟨[], y, [], by simp, rfl, by simp, ?_⟩
      intro z hz
      simp only [List.nil_append, List.mem_singleton] at hz
      subst hz
      exact le_refl _
    · rw [hfold]
      by_cases hgt : value_function y.2 > value_function x.2
      · refine Or.inr ⟨l, y, [], by simp, ?_, ?_, ?_⟩
        · simp only [List.foldl_cons, List.foldl_nil, grid_search_step,
            if_pos hgt]
        · intro z hz
          exact lt_of_le_of_lt (hall z hz) hgt
        · intro z hz
          rcases List.mem_append.1 hz with hz | hz
          · exact le_of_lt (lt_of_le_of_lt (hall z hz) hgt)
          · simp only [List.mem_singleton] at hz
            subst hz
            exact le_refl _
      · refine Or.inr ⟨pre, x, post ++ [y], by rw [hdec]; simp, ?_, hpre, ?_⟩
        · simp only [List.foldl_cons, List.foldl_nil, grid_search_step,
            if_neg hgt]
        · intro z hz
          rcases List.mem_append.1 hz with hz | hz
          · exact hall z hz
          · simp only [List.mem_singleton] at hz
            subst hz
            exact le_of_not_lt hgt

/-- C6: the grid search is deterministic and breaks ties first-seen.  First
conjunct: for a fixed allocation space (the controller's
`allocation_samples`, enumerated by the pure function
`get_allocation_policies`) and a fixed, deterministic agent representation,
two runs of `_execute` with identical inputs are identical — every stage of
the embedded pipeline is a pure function of its inputs.  Second conjunct:
on any nonempty simulation data, `ControlSignalGridSearch2` returns the
policy of the first candidate whose net value is maximal: the data splits
as `pre ++ x :: post` where the returned policy is `x`'s, every candidate
before `x` has a strictly smaller net value, and no candidate beats
`x`. -/
theorem grid_search_deterministic_first_seen :
    (∀ (agent : AgentRep) (ctrl : Controller) (comp : CompositionState)
        (num_trials : ℕ) (predicted_input : ℕ → List ℚ)
        (value_function : List (List ℚ) → ℚ),
      Controller_execute agent ctrl comp num_trials predicted_input
          value_function
        = Controller_execute agent ctrl comp num_trials predicted_input
          value_function)
    ∧ (∀ (value_function : List (List ℚ) → ℚ)
        (data : List (AllocationPolicy × List (List ℚ))), data ≠ [] →
        ∃ pre x post, data = pre ++ x :: post
          ∧ ControlSignalGridSearch2 value_function data = some x.1
          ∧ (∀ y ∈ pre, value_function y.2 < value_function x.2)
          ∧ ∀ y ∈ data, value_function y.2 ≤ value_function x.2) := by
  refine ⟨fun _ _ _ _ _ _ => rfl, fun value_function data hne => ?_⟩
  rcases grid_fold_first_seen value_function data with ⟨rfl, -⟩ | h
  · exact absurd rfl hne
  · obtain ⟨pre, x, post, hdec, hfold, hpre, hall⟩ := h
    refine ⟨pre, x, post, hdec, ?_, hpre, hall⟩
    unfold ControlSignalGridSearch2
    rw [hfold]
    rfl

/-- Witness for C6: two candidates with tied (constant-zero) net values; the
search returns the first-seen candidate's policy. -/
theorem grid_search_deterministic_first_seen_witness :
    (([([1], [[1]]), ([2], [[2]])]
        : List (AllocationPolicy × List (List ℚ))) ≠ [])
    ∧ ∃ pre x post,
        ([([1], [[1]]), ([2], [[2]])]
            : List (AllocationPolicy × List (List ℚ)))
          = pre ++ x :: post
        ∧ ControlSignalGridSearch2 (fun _ => 0) [([1], [[1]]), ([2], [[2]])]
            = some x.1
        ∧ (∀ y ∈ pre, (fun _ => (0 : ℚ)) y.2 < (fun _ => (0 : ℚ)) x.2)
        ∧ ∀ y ∈ ([([1], [[1]]), ([2], [[2]])]
            : List (AllocationPolicy × List (List ℚ))),
            (fun _ => (0 : ℚ)) y.2 ≤ (fun _ => (0 : ℚ)) x.2 :=
  ⟨by decide,
    grid_search_deterministic_first_seen.2 (fun _ => 0)
      [([1], [[1]]), ([2], [[2]])] (by decide)⟩
